import Mathlib

/-!
Verification of the in-process caching and admission-control layer of the
hawa-be-sl2 backend: `AICacheService` (app/services/weather/ai_cache_service.py),
`SheetsCacheService` (app/services/weather/sheets_cache_service.py) and
`RateLimiter` (app/core/rate_limit.py).

Modelling conventions:
* Wall-clock instants are rationals (`ℚ`); Python `time.time()` is modelled by
  an explicit `now` argument per call.  The several `time.time()` reads inside
  a single Python call are all within the same lock-held region and are
  modelled by the single instant `now`.
* A Python `OrderedDict` is an association list in insertion/recency order,
  head = oldest; `move_to_end` re-appends, `popitem(last=False)` drops the head,
  assignment to an existing key replaces in place (it does NOT move the entry),
  assignment to a new key appends.
* Fallible operations return `Except`; an upstream read is an explicit
  `Except String D` argument (the fetched rows, or the raised error's message).
-/

/-- Lookup in an ordered association list, modelling `d[k]` / `k in d`. -/
def odLookup {α : Type} (l : List (String × α)) (k : String) : Option α :=
  (l.find? (fun p => p.1 == k)).map Prod.snd

/-- Deletion, modelling `del d[k]` (no-op when absent; Python would raise,
but every call site first checks membership). -/
def odErase {α : Type} (l : List (String × α)) (k : String) : List (String × α) :=
  l.filter (fun p => p.1 != k)

/-- Assignment `d[k] = v`: replace in place when the key exists (an
`OrderedDict` keeps the entry's position), append when it is new. -/
def odSet {α : Type} (l : List (String × α)) (k : String) (v : α) : List (String × α) :=
  if (l.find? (fun p => p.1 == k)).isSome then
    l.map (fun p => if p.1 == k then (k, v) else p)
  else l ++ [(k, v)]

/-- `d.move_to_end(k)`: re-append the entry for `k` (no-op when absent;
call sites only invoke it on present keys). -/
def odMoveToEnd {α : Type} (l : List (String × α)) (k : String) : List (String × α) :=
  match l.find? (fun p => p.1 == k) with
  | some e => odErase l k ++ [e]
  | none => l

/-- The keys of an association list are pairwise distinct — an invariant of
every Python dict, assumed of cache states where the proofs need it. -/
def keysNodup {α : Type} (l : List (String × α)) : Prop :=
  (l.map Prod.fst).Nodup

instance {α : Type} (l : List (String × α)) : Decidable (keysNodup l) := by
  unfold keysNodup; infer_instance

/-!  ## AICacheService (app/services/weather/ai_cache_service.py)  -/

/-- State of `AICacheService`: `_cache : OrderedDict[str, Tuple[V, float]]`,
`ttl_seconds`, `max_size`, `_last_cleanup`, `_cleanup_interval` (= 60). -/
structure AICacheService (V : Type) where
  cache : List (String × V × ℚ)
  ttl_seconds : ℚ
  max_size : Nat
  last_cleanup : ℚ
  cleanup_interval : ℚ
deriving DecidableEq

/-- `cleanup_expired`: remove every entry whose age `now - timestamp` is
`>= ttl_seconds`. -/
def AICacheService.cleanup_expired {V : Type} (s : AICacheService V) (now : ℚ) :
    AICacheService V :=
  { s with cache := s.cache.filter (fun p => now - p.2.2 < s.ttl_seconds) }

/-- `_periodic_cleanup`: run `cleanup_expired` only when `cleanup_interval`
has elapsed since `_last_cleanup`, updating `_last_cleanup` when it fires. -/
def AICacheService.periodic_cleanup {V : Type} (s : AICacheService V) (now : ℚ) :
    AICacheService V :=
  if now - s.last_cleanup < s.cleanup_interval then s
  else AICacheService.cleanup_expired { s with last_cleanup := now } now

/-- `get_cached_recommendation(cache_key, force_refresh)`: `None` on
`force_refresh`; otherwise periodic cleanup, then a miss returns `None`, an
expired hit deletes the entry and returns `None`, a fresh hit moves the entry
to the end (LRU touch) and returns the value. -/
def AICacheService.get_cached_recommendation {V : Type} (s : AICacheService V)
    (cache_key : String) (force_refresh : Bool) (now : ℚ) :
    Option V × AICacheService V :=
  if force_refresh then (none, s)
  else
    let s1 := s.periodic_cleanup now
    match odLookup s1.cache cache_key with
    | none => (none, s1)
    | some (v, ts) =>
      if s1.ttl_seconds ≤ now - ts then
        (none, { s1 with cache := odErase s1.cache cache_key })
      else
        (some v, { s1 with cache := odMoveToEnd s1.cache cache_key })

/-- `set_cached_recommendation(cache_key, recommendation)`: when
`len(_cache) >= max_size`, `popitem(last=False)` drops the head entry (this
happens before any check whether `cache_key` is already present; on an empty
dict Python would raise `KeyError`, reachable only with `max_size = 0`), then
`_cache[cache_key] = (recommendation, time.time())`. -/
def AICacheService.set_cached_recommendation {V : Type} (s : AICacheService V)
    (cache_key : String) (recommendation : V) (now : ℚ) : AICacheService V :=
  let c := if s.max_size ≤ s.cache.length then s.cache.tail else s.cache
  { s with cache := odSet c cache_key (recommendation, now) }

/-- `clear()`. -/
def AICacheService.clear {V : Type} (s : AICacheService V) : AICacheService V :=
  { s with cache := [] }

/-- Result shape of `get_stats()`. -/
structure CacheStats where
  total_entries : Nat
  valid_entries : Int
  expired_entries : Nat
  max_size : Nat
  ttl_seconds : ℚ
deriving DecidableEq

/-- `get_stats()`: counts computed without mutating the cache. -/
def AICacheService.get_stats {V : Type} (s : AICacheService V) (now : ℚ) :
    CacheStats :=
  let total := s.cache.length
  let expired := (s.cache.filter (fun p => s.ttl_seconds ≤ now - p.2.2)).length
  ⟨total, (total : Int) - (expired : Int), expired, s.max_size, s.ttl_seconds⟩

/-- A fresh `AICacheService(ttl_seconds, max_size)`: empty cache,
`_last_cleanup = time.time()` at construction. -/
def AICacheService.init (V : Type) (ttl_seconds : ℚ) (max_size : Nat)
    (now : ℚ) : AICacheService V :=
  ⟨[], ttl_seconds, max_size, now, 60⟩

/-!  ## SheetsCacheService (app/services/weather/sheets_cache_service.py)  -/

/-- `listStartsWith pat s`: `s` begins with `pat` (char-list comparison). -/
def listStartsWith : List Char → List Char → Bool
  | [], _ => true
  | _ :: _, [] => false
  | p :: ps, c :: cs => p == c && listStartsWith ps cs

/-- `listContainsSub pat s`: `pat` occurs contiguously in `s`. -/
def listContainsSub (pat : List Char) : List Char → Bool
  | [] => pat.isEmpty
  | c :: t => listStartsWith pat (c :: t) || listContainsSub pat t

/-- Python `needle in haystack` on strings. -/
def strContains (haystack needle : String) : Bool :=
  listContainsSub needle.data haystack.data

/-- Python `str.lower()` (ASCII case map; the classifier's patterns are ASCII). -/
def strLower (s : String) : String :=
  String.mk (s.data.map Char.toLower)

/-- The throttling classifier of `get_cached_data`'s except-branch:
`"429" in error_msg or "Quota exceeded" in error_msg or
"rate limit" in error_msg.lower()`. -/
def isThrottledError (error_msg : String) : Bool :=
  strContains error_msg "429" || strContains error_msg "Quota exceeded" ||
    strContains (strLower error_msg) "rate limit"

/-- State of `SheetsCacheService` (same shape as `AICacheService`; the Python
classes duplicate the cache logic). `D` stands for the fetched rows value. -/
structure SheetsCacheService (D : Type) where
  cache : List (String × D × ℚ)
  ttl_seconds : ℚ
  max_size : Nat
  last_cleanup : ℚ
  cleanup_interval : ℚ
deriving DecidableEq

/-- `cleanup_expired` of `SheetsCacheService`. -/
def SheetsCacheService.cleanup_expired {D : Type} (s : SheetsCacheService D)
    (now : ℚ) : SheetsCacheService D :=
  { s with cache := s.cache.filter (fun p => now - p.2.2 < s.ttl_seconds) }

/-- `_periodic_cleanup` of `SheetsCacheService`. -/
def SheetsCacheService.periodic_cleanup {D : Type} (s : SheetsCacheService D)
    (now : ℚ) : SheetsCacheService D :=
  if now - s.last_cleanup < s.cleanup_interval then s
  else SheetsCacheService.cleanup_expired { s with last_cleanup := now } now

/-- The cache-consult phase of `get_cached_data` (the first lock-held block):
skipped under `force_refresh`; a fresh entry is moved to the end and returned,
an expired entry is deleted (and the phase reports a miss). -/
def SheetsCacheService.cacheRead {D : Type} (s : SheetsCacheService D)
    (cache_key : String) (force_refresh : Bool) (now : ℚ) :
    Option D × SheetsCacheService D :=
  if force_refresh = false then
    match odLookup s.cache cache_key with
    | some (v, ts) =>
      if now - ts < s.ttl_seconds then
        (some v, { s with cache := odMoveToEnd s.cache cache_key })
      else
        (none, { s with cache := odErase s.cache cache_key })
    | none => (none, s)
  else (none, s)

/-- `get_cached_data(spreadsheet_id, worksheet_name, force_refresh)`.
`upstream` is the outcome of `self._service.read_from_google_sheets(...)`:
the rows, or the raised exception's message.  `now` is `current_time`,
captured once at the start of the call — in particular the timestamp stored
with a freshly fetched value is this pre-fetch instant.  The second component
is the cache state when the call returns OR raises (mutations made before a
raise persist in Python). -/
def SheetsCacheService.get_cached_data {D : Type} (s : SheetsCacheService D)
    (spreadsheet_id worksheet_name : String) (force_refresh : Bool)
    (upstream : Except String D) (now : ℚ) :
    Except String D × SheetsCacheService D :=
  let cache_key := spreadsheet_id ++ ":" ++ worksheet_name
  let s0 := s.periodic_cleanup now
  let r := s0.cacheRead cache_key force_refresh now
  match r.1 with
  | some v => (.ok v, r.2)
  | none =>
    let s1 := r.2
    match upstream with
    | .ok raw =>
      let c := if s1.max_size ≤ s1.cache.length then s1.cache.tail else s1.cache
      (.ok raw, { s1 with cache := odSet c cache_key (raw, now) })
    | .error e =>
      match odLookup s1.cache cache_key with
      | some (v, _) =>
        if isThrottledError e then (.ok v, s1) else (.error e, s1)
      | none => (.error e, s1)

/-- `clear_cache()`. -/
def SheetsCacheService.clear_cache {D : Type} (s : SheetsCacheService D) :
    SheetsCacheService D :=
  { s with cache := [] }

/-!  ## RateLimiter (app/core/rate_limit.py)  -/

/-- Python `int(x)` on a float: truncation toward zero. -/
def pyInt (q : ℚ) : Int :=
  if 0 ≤ q then ⌊q⌋ else ⌈q⌉

/-- Python `min` of a nonempty list (0 on `[]`, never reached at call sites). -/
def listMin : List ℚ → ℚ
  | [] => 0
  | [x] => x
  | x :: y :: t => min x (listMin (y :: t))

/-- State of `RateLimiter`: `max_requests`, `window_seconds` (both `int`,
reassignable by the hot-reload in `rate_limit_middleware`), and
`_requests : Dict[str, List[float]]` (a `defaultdict(list)`). -/
structure RateLimiter where
  max_requests : Int
  window_seconds : Int
  requests : List (String × List ℚ)
deriving DecidableEq

/-- `check_rate_limit(key)`: prune the key's timestamps to those strictly
inside the window (the defaultdict access also materialises the pruned —
possibly empty — list in `_requests`); deny without recording when the pruned
count reaches `max_requests`, computing the retry hint from the oldest
remaining timestamp via `int(...) + 1`; otherwise append `now` and allow. -/
def RateLimiter.check_rate_limit (rl : RateLimiter) (key : String) (now : ℚ) :
    (Bool × Int) × RateLimiter :=
  let window_start := now - (rl.window_seconds : ℚ)
  let pruned := ((odLookup rl.requests key).getD []).filter
    (fun t => window_start < t)
  let request_count := pruned.length
  if rl.max_requests ≤ (request_count : Int) then
    let retry_after : Int :=
      if pruned.isEmpty then rl.window_seconds
      else pyInt ((rl.window_seconds : ℚ) - (now - listMin pruned)) + 1
    ((false, retry_after), { rl with requests := odSet rl.requests key pruned })
  else
    ((true, 0), { rl with requests := odSet rl.requests key (pruned ++ [now]) })

/-- `get_remaining_requests(key)`: for a key present in `_requests`, prune
and report `max(0, max_requests - count)`; for an absent key report
`max_requests` unchanged. -/
def RateLimiter.get_remaining_requests (rl : RateLimiter) (key : String)
    (now : ℚ) : Int × RateLimiter :=
  let window_start := now - (rl.window_seconds : ℚ)
  match odLookup rl.requests key with
  | some ts =>
    let pruned := ts.filter (fun t => window_start < t)
    (max 0 (rl.max_requests - (pruned.length : Int)),
      { rl with requests := odSet rl.requests key pruned })
  | none => (rl.max_requests, rl)

/-!  ## generate_cache_key (app/services/weather/ai_cache_service.py)

The key derivation runs `json.dumps(weather_data, sort_keys=True, default=str)`
(compact Python dict payloads; `default=str` only matters for values that are
not JSON-serialisable, which the model's `PyJson` values always are), hashes
the UTF-8 bytes with MD5 and keeps the first 8 hex characters.  -/

/-- JSON-serialisable payload values, modelling the `weather_data` dict. -/
inductive PyJson where
  | str (s : String)
  | int (n : Int)
  | bool (b : Bool)
  | null
  | arr (xs : List PyJson)
  | obj (kvs : List (String × PyJson))

/-- Lowercase hex digit for a value below 16. -/
def hexDigit (n : Nat) : Char :=
  if n < 10 then Char.ofNat (48 + n) else Char.ofNat (97 + (n - 10))

/-- Two lowercase hex characters of a byte. -/
def hex2 (n : Nat) : String :=
  String.mk [hexDigit (n / 16 % 16), hexDigit (n % 16)]

/-- Four lowercase hex characters of a 16-bit value. -/
def hex4 (n : Nat) : String :=
  String.mk [hexDigit (n / 4096 % 16), hexDigit (n / 256 % 16),
    hexDigit (n / 16 % 16), hexDigit (n % 16)]

/-- Escaping of one character as in `json.dumps` with its default
`ensure_ascii=True`: short escapes for the common controls, `\uXXXX` for the
remaining controls and all non-ASCII (surrogate pairs above the BMP). -/
def jsonEscapeChar (c : Char) : String :=
  if c = '"' then "\\\""
  else if c = '\\' then "\\\\"
  else if c = '\n' then "\\n"
  else if c = '\t' then "\\t"
  else if c = '\r' then "\\r"
  else if c.toNat = 8 then "\\b"
  else if c.toNat = 12 then "\\f"
  else if c.toNat < 32 then "\\u" ++ hex4 c.toNat
  else if c.toNat < 128 then String.singleton c
  else if c.toNat < 65536 then "\\u" ++ hex4 c.toNat
  else
    "\\u" ++ hex4 (55296 + (c.toNat - 65536) / 1024) ++
      "\\u" ++ hex4 (56320 + (c.toNat - 65536) % 1024)

/-- JSON string literal for `s`. -/
def jsonQuote (s : String) : String :=
  "\"" ++ String.join (s.data.map jsonEscapeChar) ++ "\""

/-- Stable insertion of a rendered key/value pair by key order. -/
def insertSorted (p : String × String) :
    List (String × String) → List (String × String)
  | [] => [p]
  | q :: qs => if p.1 < q.1 then p :: q :: qs else q :: insertSorted p qs

/-- Stable ascending sort by key — `sorted(d.items())` under `sort_keys=True`
(dict keys are unique, so comparing keys alone matches tuple comparison). -/
def sortPairs : List (String × String) → List (String × String)
  | [] => []
  | p :: ps => insertSorted p (sortPairs ps)

mutual
/-- `json.dumps(x, sort_keys=True)` with the default separators
`", "` and `": "`. -/
def pyJsonDumps : PyJson → String
  | .str s => jsonQuote s
  | .int n => toString n
  | .bool b => cond b "true" "false"
  | .null => "null"
  | .arr xs => "[" ++ String.intercalate ", " (pyJsonDumpsList xs) ++ "]"
  | .obj kvs =>
      "\x7b" ++
        String.intercalate ", "
          ((sortPairs (pyJsonDumpsObj kvs)).map
            (fun p => jsonQuote p.1 ++ ": " ++ p.2)) ++
        "\x7d"

/-- Serialise each element of an array. -/
def pyJsonDumpsList : List PyJson → List String
  | [] => []
  | x :: xs => pyJsonDumps x :: pyJsonDumpsList xs

/-- Serialise each value of an object, keeping the key for sorting. -/
def pyJsonDumpsObj : List (String × PyJson) → List (String × String)
  | [] => []
  | kv :: kvs => (kv.1, pyJsonDumps kv.2) :: pyJsonDumpsObj kvs
end

/-- UTF-8 bytes of one character (`str.encode()`). -/
def utf8EncodeChar (c : Char) : List Nat :=
  let n := c.toNat
  if n < 128 then [n]
  else if n < 2048 then [192 + n / 64, 128 + n % 64]
  else if n < 65536 then [224 + n / 4096, 128 + n / 64 % 64, 128 + n % 64]
  else [240 + n / 262144, 128 + n / 4096 % 64, 128 + n / 64 % 64, 128 + n % 64]

/-- UTF-8 encoding of a string as a byte list. -/
def utf8Encode (s : String) : List Nat :=
  (s.data.map utf8EncodeChar).flatten

/-!  MD5 (RFC 1321), modelling `hashlib.md5(...).hexdigest()`.  Bytes and
32-bit words are `Nat`s reduced mod `2^32` where overflow matters.  -/

/-- Reduce to a 32-bit word. -/
def w32 (n : Nat) : Nat := n % 4294967296

/-- Left-rotation of a 32-bit word (argument below `2^32`). -/
def rotl32 (x s : Nat) : Nat := w32 (x * 2 ^ s) + x / 2 ^ (32 - s)

/-- Per-round shift amounts. -/
def md5S : List Nat :=
  [7, 12, 17, 22, 7, 12, 17, 22, 7, 12, 17, 22, 7, 12, 17, 22,
   5, 9, 14, 20, 5, 9, 14, 20, 5, 9, 14, 20, 5, 9, 14, 20,
   4, 11, 16, 23, 4, 11, 16, 23, 4, 11, 16, 23, 4, 11, 16, 23,
   6, 10, 15, 21, 6, 10, 15, 21, 6, 10, 15, 21, 6, 10, 15, 21]

/-- Sine-derived additive constants. -/
def md5K : List Nat :=
  [0xd76aa478, 0xe8c7b756, 0x242070db, 0xc1bdceee,
   0xf57c0faf, 0x4787c62a, 0xa8304613, 0xfd469501,
   0x698098d8, 0x8b44f7af, 0xffff5bb1, 0x895cd7be,
   0x6b901122, 0xfd987193, 0xa679438e, 0x49b40821,
   0xf61e2562, 0xc040b340, 0x265e5a51, 0xe9b6c7aa,
   0xd62f105d, 0x02441453, 0xd8a1e681, 0xe7d3fbc8,
   0x21e1cde6, 0xc33707d6, 0xf4d50d87, 0x455a14ed,
   0xa9e3e905, 0xfcefa3f8, 0x676f02d9, 0x8d2a4c8a,
   0xfffa3942, 0x8771f681, 0x6d9d6122, 0xfde5380c,
   0xa4beea44, 0x4bdecfa9, 0xf6bb4b60, 0xbebfbc70,
   0x289b7ec6, 0xeaa127fa, 0xd4ef3085, 0x04881d05,
   0xd9d4d039, 0xe6db99e5, 0x1fa27cf8, 0xc4ac5665,
   0xf4292244, 0x432aff97, 0xab9423a7, 0xfc93a039,
   0x655b59c3, 0x8f0ccc92, 0xffeff47d, 0x85845dd1,
   0x6fa87e4f, 0xfe2ce6e0, 0xa3014314, 0x4e0811a1,
   0xf7537e82, 0xbd3af235, 0x2ad7d2bb, 0xeb86d391]

/-- Round functions (arguments below `2^32`; `4294967295 - x` is bitwise
complement there). -/
def md5F (b c d : Nat) : Nat := (b &&& c) ||| ((4294967295 - b) &&& d)

/-- Second-round mixing function. -/
def md5G (b c d : Nat) : Nat := (b &&& d) ||| (c &&& (4294967295 - d))

/-- Third-round mixing function. -/
def md5H (b c d : Nat) : Nat := b ^^^ c ^^^ d

/-- Fourth-round mixing function. -/
def md5I (b c d : Nat) : Nat := c ^^^ (b ||| (4294967295 - d))

/-- Little-endian bytes of `n` (`count` of them). -/
def natLEBytes (n count : Nat) : List Nat :=
  (List.range count).map (fun i => n / 2 ^ (8 * i) % 256)

/-- Merkle–Damgård padding: `0x80`, zeros to 56 mod 64, then the bit length
as 8 little-endian bytes. -/
def md5Pad (msg : List Nat) : List Nat :=
  msg ++ [128] ++ List.replicate ((119 - msg.length % 64) % 64) 0 ++
    natLEBytes (8 * msg.length) 8

/-- Word `j` of a 64-byte block, little-endian. -/
def md5M (block : List Nat) (j : Nat) : Nat :=
  block.getD (4 * j) 0 + 256 * block.getD (4 * j + 1) 0 +
    65536 * block.getD (4 * j + 2) 0 + 16777216 * block.getD (4 * j + 3) 0

/-- One of the 64 rounds on the running `(a, b, c, d)`. -/
def md5Round (block : List Nat) (abcd : Nat × Nat × Nat × Nat) (i : Nat) :
    Nat × Nat × Nat × Nat :=
  let (a, b, c, d) := abcd
  let fg : Nat × Nat :=
    if i < 16 then (md5F b c d, i)
    else if i < 32 then (md5G b c d, (5 * i + 1) % 16)
    else if i < 48 then (md5H b c d, (3 * i + 5) % 16)
    else (md5I b c d, (7 * i) % 16)
  let tmp := w32 (fg.1 + a + md5K.getD i 0 + md5M block fg.2)
  (d, w32 (b + rotl32 tmp (md5S.getD i 0)), b, c)

/-- Compression of one 64-byte block into the state. -/
def md5Compress (st : Nat × Nat × Nat × Nat) (block : List Nat) :
    Nat × Nat × Nat × Nat :=
  let r := (List.range 64).foldl (md5Round block) st
  (w32 (st.1 + r.1), w32 (st.2.1 + r.2.1), w32 (st.2.2.1 + r.2.2.1),
    w32 (st.2.2.2 + r.2.2.2))

/-- Fold the compression over consecutive 64-byte blocks (structural
recursion on a fuel bounded by the byte count; each step consumes 64 bytes,
so the message length is always enough fuel). -/
def md5BlocksFuel : Nat → Nat × Nat × Nat × Nat → List Nat → Nat × Nat × Nat × Nat
  | 0, st, _ => st
  | _ + 1, st, [] => st
  | fuel + 1, st, b :: rest =>
    md5BlocksFuel fuel (md5Compress st ((b :: rest).take 64)) (rest.drop 63)

/-- Fold the compression over consecutive 64-byte blocks. -/
def md5Blocks (st : Nat × Nat × Nat × Nat) (l : List Nat) :
    Nat × Nat × Nat × Nat :=
  md5BlocksFuel l.length st l

/-- The 16 digest bytes. -/
def md5Digest (msg : List Nat) : List Nat :=
  let f := md5Blocks (1732584193, 4023233417, 2562383102, 271733878) (md5Pad msg)
  natLEBytes f.1 4 ++ natLEBytes f.2.1 4 ++ natLEBytes f.2.2.1 4 ++
    natLEBytes f.2.2.2 4

/-- `hashlib.md5(bytes).hexdigest()`. -/
def md5HexDigest (msg : List Nat) : String :=
  String.join ((md5Digest msg).map hex2)

/-- `generate_cache_key(user_id, weather_data)`:
`data_str = json.dumps(weather_data, sort_keys=True, default=str)`,
`data_hash = hashlib.md5(data_str.encode()).hexdigest()[:8]`, and the result
is the f-string `f"ai_rec_{user_id}_{data_hash}"`. -/
def generate_cache_key (user_id : Int) (weather_data : PyJson) : String :=
  let data_str := pyJsonDumps weather_data
  let data_hash := (md5HexDigest (utf8Encode data_str)).take 8
  "ai_rec_" ++ toString user_id ++ "_" ++ data_hash

/-- First 8 hex characters of a digest string, as named by the spec. -/
def first8HexChars (s : String) : String := s.take 8

/-- Canonical JSON in the spec's sense: object keys sorted before
serialisation. -/
def canonicalJSON (payload : PyJson) : String := pyJsonDumps payload

/-- The spec's stated derived-result key format (spec §6): `"result_" +
subjectId + "_" + first8HexChars(md5(canonicalJSON(inputPayload)))`.  Stated
from the spec's words, to be compared against `generate_cache_key`. -/
def specResultCacheKey (subjectId : Int) (inputPayload : PyJson) : String :=
  "result_" ++ toString subjectId ++ "_" ++
    first8HexChars (md5HexDigest (utf8Encode (canonicalJSON inputPayload)))

/-- A fresh `SheetsCacheService(ttl_seconds, max_size)`. -/
def SheetsCacheService.init (D : Type) (ttl_seconds : ℚ) (max_size : Nat)
    (now : ℚ) : SheetsCacheService D :=
  ⟨[], ttl_seconds, max_size, now, 60⟩

/-- Public operations on an `AICacheService` (arguments chosen by the
environment, each call at its own instant). -/
inductive AIOp (V : Type) where
  | read (key : String) (force : Bool) (now : ℚ)
  | store (key : String) (v : V) (now : ℚ)
  | cleanup (now : ℚ)
  | clear
  | stats (now : ℚ)

/-- Effect of one public operation on the `AICacheService` state
(`get_stats` computes counters without mutating). -/
def AIOp.apply {V : Type} (s : AICacheService V) : AIOp V → AICacheService V
  | .read k f n => (s.get_cached_recommendation k f n).2
  | .store k v n => s.set_cached_recommendation k v n
  | .cleanup n => s.cleanup_expired n
  | .clear => s.clear
  | .stats _ => s

/-- Run a sequence of public operations. -/
def AICacheService.runOps {V : Type} (s : AICacheService V)
    (ops : List (AIOp V)) : AICacheService V :=
  ops.foldl AIOp.apply s

/-- Public operations on a `SheetsCacheService`. -/
inductive SheetsOp (D : Type) where
  | fetch (sid wn : String) (force : Bool) (upstream : Except String D) (now : ℚ)
  | cleanup (now : ℚ)
  | clear
  | stats (now : ℚ)

/-- Effect of one public operation on the `SheetsCacheService` state. -/
def SheetsOp.apply {D : Type} (s : SheetsCacheService D) :
    SheetsOp D → SheetsCacheService D
  | .fetch sid wn f up n => (s.get_cached_data sid wn f up n).2
  | .cleanup n => s.cleanup_expired n
  | .clear => s.clear_cache
  | .stats _ => s

/-- Run a sequence of public operations. -/
def SheetsCacheService.runOps {D : Type} (s : SheetsCacheService D)
    (ops : List (SheetsOp D)) : SheetsCacheService D :=
  ops.foldl SheetsOp.apply s

/-!  ## Association-list lemmas  -/

theorem odLookup_cons {α : Type} (p : String × α) (l : List (String × α))
    (k : String) :
    odLookup (p :: l) k = if p.1 == k then some p.2 else odLookup l k := by
  cases h : p.1 == k <;> simp [odLookup, List.find?, h]

theorem odLookup_eq_none_iff {α : Type} {l : List (String × α)} {k : String} :
    odLookup l k = none ↔ ∀ p ∈ l, (p.1 == k) = false := by
  simp [odLookup, List.find?_eq_none]

theorem odLookup_none_filter {α : Type} {l : List (String × α)} {k : String}
    (q : String × α → Bool) (h : odLookup l k = none) :
    odLookup (l.filter q) k = none := by
  rw [odLookup_eq_none_iff] at h ⊢
  exact fun p hp => h p (List.mem_of_mem_filter hp)


theorem odLookup_eq_none_of_not_mem_keys {α : Type} {l : List (String × α)}
    {k : String} (h : k ∉ l.map Prod.fst) : odLookup l k = none := by
  rw [odLookup_eq_none_iff]
  intro p hp
  cases hb : p.1 == k
  · rfl
  · exact absurd (by rw [← eq_of_beq hb]; exact List.mem_map_of_mem Prod.fst hp) h

theorem keysNodup_cons {α : Type} {p : String × α} {t : List (String × α)}
    (hnd : keysNodup (p :: t)) : p.1 ∉ t.map Prod.fst ∧ keysNodup t := by
  unfold keysNodup at hnd
  rw [List.map_cons, List.nodup_cons] at hnd
  exact hnd

theorem odLookup_filter_some {α : Type} {l : List (String × α)} {k : String}
    {a : α} (q : String × α → Bool) (hnd : keysNodup l)
    (h : odLookup l k = some a) :
    odLookup (l.filter q) k = if q (k, a) then some a else none := by
  induction l with
  | nil => simp [odLookup] at h
  | cons p t ih =>
    obtain ⟨hhead, hnd'⟩ := keysNodup_cons hnd
    rw [odLookup_cons] at h
    cases hb : (p.1 == k) with
    | false =>
      rw [hb] at h
      simp only [Bool.false_eq_true, if_false] at h
      cases hq : q p with
      | false =>
        rw [List.filter_cons_of_neg (by rw [hq]; simp)]
        exact ih hnd' h
      | true =>
        rw [List.filter_cons_of_pos (by rw [hq]), odLookup_cons, hb]
        simp only [Bool.false_eq_true, if_false]
        exact ih hnd' h
    | true =>
      rw [hb] at h
      simp only [if_true, Option.some.injEq] at h
      have hk : p.1 = k := eq_of_beq hb
      have hpa : p = (k, a) := Prod.ext hk h
      have hnotin : k ∉ t.map Prod.fst := by rw [← hk]; exact hhead
      cases hq : q (k, a) with
      | false =>
        rw [List.filter_cons_of_neg (by rw [hpa, hq]; simp)]
        simp only [Bool.false_eq_true, if_false]
        exact odLookup_none_filter q (odLookup_eq_none_of_not_mem_keys hnotin)
      | true =>
        rw [List.filter_cons_of_pos (by rw [hpa, hq]), odLookup_cons, hb]
        simp [h, hq]

theorem odLookup_odErase_self {α : Type} (l : List (String × α)) (k : String) :
    odLookup (odErase l k) k = none := by
  rw [odLookup_eq_none_iff]
  intro p hp
  have := List.of_mem_filter hp
  simpa using this

theorem odLookup_odErase_ne {α : Type} (l : List (String × α)) {k k' : String}
    (h : k' ≠ k) : odLookup (odErase l k) k' = odLookup l k' := by
  induction l with
  | nil => rfl
  | cons p t ih =>
    cases hb : (p.1 == k) with
    | true =>
      have hk : p.1 = k := eq_of_beq hb
      have hk' : p.1 ≠ k' := fun he => h (he ▸ hk)
      simp [odErase, odLookup_cons, List.filter_cons, hk, hk', Ne.symm h,
        ih, odErase] at ih ⊢
    | false =>
      have hk : p.1 ≠ k := ne_of_beq_false hb
      simp only [odErase, List.filter_cons] at ih ⊢
      simp [odLookup_cons, hk, ih]

theorem odLookup_map_replace {α : Type} (l : List (String × α)) (k : String)
    (v : α) :
    odLookup (l.map (fun p => if p.1 == k then (k, v) else p)) k =
      Option.map (fun _ => v) (odLookup l k) := by
  induction l with
  | nil => rfl
  | cons p t ih =>
    cases hb : (p.1 == k) with
    | true =>
      have hk : p.1 = k := eq_of_beq hb
      simp [odLookup_cons, hk, ih]
    | false =>
      have hk : p.1 ≠ k := ne_of_beq_false hb
      simp only [odLookup_cons, hk, if_neg, List.map_cons]
      simpa [odLookup_cons, hk] using ih

theorem odLookup_nil {α : Type} (k : String) :
    odLookup ([] : List (String × α)) k = none := rfl

theorem odLookup_find?_none {α : Type} {l : List (String × α)} {k : String} :
    odLookup l k = none ↔ l.find? (fun p => p.1 == k) = none := by
  simp [odLookup]

theorem odLookup_append_of_none {α : Type} {l₁ : List (String × α)}
    (l₂ : List (String × α)) {k : String} (h : odLookup l₁ k = none) :
    odLookup (l₁ ++ l₂) k = odLookup l₂ k := by
  unfold odLookup at h ⊢
  rw [List.find?_append]
  rw [odLookup_find?_none.mp (by exact h)]
  simp [odLookup] at h ⊢

theorem odLookup_append_of_some {α : Type} {l₁ : List (String × α)}
    (l₂ : List (String × α)) {k : String} {a : α}
    (h : odLookup l₁ k = some a) :
    odLookup (l₁ ++ l₂) k = some a := by
  unfold odLookup at h ⊢
  rw [List.find?_append]
  obtain ⟨e, he, hea⟩ : ∃ e, l₁.find? (fun p => p.1 == k) = some e ∧ e.2 = a := by
    cases hf : l₁.find? (fun p => p.1 == k) with
    | none => rw [hf] at h; simp at h
    | some e => rw [hf] at h; simp at h; exact ⟨e, rfl, h⟩
  rw [he]
  simp [hea]

theorem odLookup_map_replace_ne {α : Type} (l : List (String × α))
    {k k' : String} (v : α) (h : k' ≠ k) :
    odLookup (l.map (fun p => if p.1 == k then (k, v) else p)) k' =
      odLookup l k' := by
  induction l with
  | nil => rfl
  | cons p t ih =>
    cases hb : (p.1 == k) with
    | true =>
      have hk : p.1 = k := eq_of_beq hb
      have hk' : p.1 ≠ k' := fun he => h (he ▸ hk)
      simp only [List.map_cons, hb, if_true]
      rw [odLookup_cons, odLookup_cons]
      simp only [show (((k, v) : String × α).1 == k') = false from
        beq_eq_false_iff_ne.mpr (Ne.symm h),
        show (p.1 == k') = false from beq_eq_false_iff_ne.mpr hk',
        Bool.false_eq_true, if_false]
      exact ih
    | false =>
      have hk : p.1 ≠ k := ne_of_beq_false hb
      simp only [List.map_cons, hb, Bool.false_eq_true, if_false]
      rw [odLookup_cons, odLookup_cons, ih]

theorem odLookup_odSet_self {α : Type} (l : List (String × α)) (k : String)
    (v : α) : odLookup (odSet l k v) k = some v := by
  unfold odSet
  cases hf : (l.find? fun p => p.1 == k).isSome with
  | false =>
    simp only [hf, Bool.false_eq_true, if_false]
    rw [odLookup_append_of_none _ (odLookup_find?_none.mpr
      (Option.not_isSome_iff_eq_none.mp (by rw [hf]; exact Bool.false_ne_true)))]
    simp [odLookup_cons]
  | true =>
    simp only [hf, if_true]
    rw [odLookup_map_replace]
    cases hl : odLookup l k with
    | none =>
      rw [odLookup_find?_none.mp hl] at hf
      simp at hf
    | some a => simp

theorem odLookup_odSet_ne {α : Type} (l : List (String × α)) {k k' : String}
    (v : α) (h : k' ≠ k) : odLookup (odSet l k v) k' = odLookup l k' := by
  unfold odSet
  cases hf : (l.find? fun p => p.1 == k).isSome with
  | false =>
    simp only [hf, Bool.false_eq_true, if_false]
    cases hl : odLookup l k' with
    | none =>
      rw [odLookup_append_of_none _ hl]
      simp [odLookup_cons, odLookup_nil,
        beq_eq_false_iff_ne.mpr (fun he => h he.symm), hl]
    | some a => exact odLookup_append_of_some _ hl
  | true =>
    simp only [hf, if_true]
    exact odLookup_map_replace_ne l v h

theorem odSet_length_le {α : Type} (l : List (String × α)) (k : String)
    (v : α) : (odSet l k v).length ≤ l.length + 1 := by
  unfold odSet
  cases hf : (l.find? fun p => p.1 == k).isSome <;> simp

theorem odErase_length_le {α : Type} (l : List (String × α)) (k : String) :
    (odErase l k).length ≤ l.length :=
  List.length_filter_le _ _

theorem odErase_length_lt {α : Type} {l : List (String × α)} {k : String}
    (h : (l.find? fun p => p.1 == k).isSome) :
    (odErase l k).length < l.length := by
  induction l with
  | nil => simp [List.find?] at h
  | cons p t ih =>
    cases hb : (p.1 == k) with
    | true =>
      have : odErase (p :: t) k = odErase t k := by
        unfold odErase
        rw [List.filter_cons_of_neg (by simp [bne, hb])]
      rw [this, List.length_cons]
      exact Nat.lt_succ_of_le (odErase_length_le t k)
    | false =>
      have hs : (t.find? fun p => p.1 == k).isSome := by
        rw [List.find?_cons, hb] at h
        exact h
      have : odErase (p :: t) k = p :: odErase t k := by
        unfold odErase
        rw [List.filter_cons_of_pos (by simp [bne, hb])]
      rw [this, List.length_cons, List.length_cons]
      exact Nat.succ_lt_succ (ih hs)

theorem odMoveToEnd_length_le {α : Type} (l : List (String × α)) (k : String) :
    (odMoveToEnd l k).length ≤ l.length := by
  unfold odMoveToEnd
  cases hf : l.find? (fun p => p.1 == k) with
  | none => exact Nat.le_refl _
  | some e =>
    rw [List.length_append, List.length_singleton]
    exact odErase_length_lt (by rw [hf]; rfl)

/-!  ## Rate-limiter lemmas  -/

/-- The key's timestamps surviving the prune inside `check_rate_limit`:
those strictly newer than `now - window_seconds`. -/
def prunedOf (rl : RateLimiter) (key : String) (now : ℚ) : List ℚ :=
  ((odLookup rl.requests key).getD []).filter
    (fun t => now - (rl.window_seconds : ℚ) < t)

/-- The count of recorded timestamps for `key` lying within the closed
window `[now - window_seconds, now]`, as the invariant measures it. -/
def recordedInWindow (rl : RateLimiter) (key : String) (now : ℚ) : Nat :=
  (((odLookup rl.requests key).getD []).filter
    (fun t => decide (now - (rl.window_seconds : ℚ) ≤ t ∧ t ≤ now))).length

theorem check_rate_limit_eq (rl : RateLimiter) (key : String) (now : ℚ) :
    rl.check_rate_limit key now =
      if rl.max_requests ≤ ((prunedOf rl key now).length : Int) then
        ((false,
          if (prunedOf rl key now).isEmpty then rl.window_seconds
          else pyInt ((rl.window_seconds : ℚ) -
            (now - listMin (prunedOf rl key now))) + 1),
         { rl with requests := odSet rl.requests key (prunedOf rl key now) })
      else
        ((true, 0),
         { rl with
            requests := odSet rl.requests key (prunedOf rl key now ++ [now]) }) := rfl

theorem listMin_mem : ∀ (l : List ℚ), l ≠ [] → listMin l ∈ l
  | [x], _ => by simp [listMin]
  | x :: y :: u, _ => by
    rw [show listMin (x :: y :: u) = min x (listMin (y :: u)) from rfl]
    rcases min_choice x (listMin (y :: u)) with hm | hm
    · rw [hm]; exact List.mem_cons_self _ _
    · rw [hm]; exact List.mem_cons_of_mem _ (listMin_mem (y :: u) (by simp))

theorem prunedOf_gt {rl : RateLimiter} {key : String} {now t : ℚ}
    (ht : t ∈ prunedOf rl key now) : now - (rl.window_seconds : ℚ) < t := by
  have := List.of_mem_filter ht
  simpa using this

/-- C6: for every limiter with `window_seconds > 0` and every key, whenever
`check_rate_limit` returns `allowed = false`, the accompanying
`retry_after_seconds` is strictly positive. -/
theorem c6_retry_hint_positive (rl : RateLimiter) (key : String) (now : ℚ)
    (hw : 0 < rl.window_seconds)
    (hdenied : ((rl.check_rate_limit key now).1).1 = false) :
    0 < ((rl.check_rate_limit key now).1).2 := by
  rw [check_rate_limit_eq] at hdenied ⊢
  by_cases hc : rl.max_requests ≤ ((prunedOf rl key now).length : Int)
  · rw [if_pos hc]
    dsimp only
    cases he : (prunedOf rl key now).isEmpty with
    | true =>
      simp only [he, if_true]
      exact hw
    | false =>
      simp only [he, Bool.false_eq_true, if_false]
      have hne : prunedOf rl key now ≠ [] := by
        intro h0
        rw [h0] at he
        simp at he
      have hgt : now - (rl.window_seconds : ℚ) < listMin (prunedOf rl key now) :=
        prunedOf_gt (listMin_mem _ hne)
      have hx : 0 ≤ (rl.window_seconds : ℚ) -
          (now - listMin (prunedOf rl key now)) := by linarith
      unfold pyInt
      rw [if_pos hx]
      have hfl : 0 ≤ ⌊(rl.window_seconds : ℚ) -
          (now - listMin (prunedOf rl key now))⌋ := Int.floor_nonneg.mpr hx
      omega
  · rw [if_neg hc] at hdenied
    simp at hdenied

/-- Witness for C6 at a concrete denied call: one recorded timestamp,
`max_requests = 1`, so the next call is denied with a positive hint. -/
theorem c6_retry_hint_positive_witness :
    0 < (((RateLimiter.mk 1 60 [("k", [5])]).check_rate_limit "k" 10).1).2 :=
  c6_retry_hint_positive (RateLimiter.mk 1 60 [("k", [5])]) "k" 10
    (by decide) (by with_unfolding_all decide)

/-- C7 fails as stated: at `window_seconds = 60`, one recorded timestamp
`9.5` and `now = 10`, the code returns `int(59.5) + 1 = 60`, while the
claimed formula `ceil(59.5) + 1` (clamped at 0) gives `61`. -/
theorem c7_retry_hint_value_counterexample :
    (((RateLimiter.mk 1 60 [("k", [19/2])]).check_rate_limit "k" 10).1 =
      (false, 60)) ∧
    max (⌈(60 : ℚ) - ((10 : ℚ) - 19/2)⌉ + 1) 0 = 61 ∧ (60 : Int) ≠ 61 := by
  refine ⟨by with_unfolding_all decide, by with_unfolding_all decide, by decide⟩

/-- C7 amended: on a denied `check_rate_limit` call with at least one
timestamp remaining after pruning, `retry_after` equals
`floor(window_seconds - (now - oldestRemainingTimestamp)) + 1` — Python's
`int()` truncates, which is `floor` on this positive quantity, and no
clamping is applied (none is needed: the value is always ≥ 1). -/
theorem c7_retry_hint_value (rl : RateLimiter) (key : String) (now : ℚ)
    (hne : prunedOf rl key now ≠ [])
    (hdenied : ((rl.check_rate_limit key now).1).1 = false) :
    ((rl.check_rate_limit key now).1).2 =
      ⌊(rl.window_seconds : ℚ) - (now - listMin (prunedOf rl key now))⌋ + 1 := by
  rw [check_rate_limit_eq] at hdenied ⊢
  by_cases hc : rl.max_requests ≤ ((prunedOf rl key now).length : Int)
  · rw [if_pos hc]
    dsimp only
    have he : (prunedOf rl key now).isEmpty = false := by
      cases hq : prunedOf rl key now with
      | nil => exact absurd hq hne
      | cons a t => rfl
    simp only [he, Bool.false_eq_true, if_false]
    have hgt : now - (rl.window_seconds : ℚ) < listMin (prunedOf rl key now) :=
      prunedOf_gt (listMin_mem _ hne)
    have hx : 0 ≤ (rl.window_seconds : ℚ) -
        (now - listMin (prunedOf rl key now)) := by linarith
    unfold pyInt
    rw [if_pos hx]
  · rw [if_neg hc] at hdenied
    simp at hdenied

/-- Witness for the amended C7 at a concrete denied call. -/
theorem c7_retry_hint_value_witness :
    (((RateLimiter.mk 1 60 [("k", [5])]).check_rate_limit "k" 10).1).2 =
      ⌊((60 : Int) : ℚ) -
        ((10 : ℚ) - listMin (prunedOf (RateLimiter.mk 1 60 [("k", [5])]) "k" 10))⌋
        + 1 :=
  c7_retry_hint_value (RateLimiter.mk 1 60 [("k", [5])]) "k" 10
    (by with_unfolding_all decide) (by with_unfolding_all decide)

/-- C8 fails as stated: `max_requests` is a plain `int` reloaded from
configuration, and at the hot-reloadable value `0` a key with zero recorded
timestamps is denied (`0 >= 0`), not allowed. -/
theorem c8_first_request_counterexample :
    (odLookup (RateLimiter.mk 0 60 []).requests "k").getD [] = [] ∧
    (((RateLimiter.mk 0 60 []).check_rate_limit "k" 0).1).1 = false := by
  refine ⟨by decide, by with_unfolding_all decide⟩

/-- C8 amended: a key with zero recorded timestamps (never seen, or fully
pruned) is always allowed, provided the `max_requests` in effect at
evaluation time is at least 1. -/
theorem c8_first_request_admitted (rl : RateLimiter) (key : String) (now : ℚ)
    (hmax : 1 ≤ rl.max_requests) (hzero : prunedOf rl key now = []) :
    ((rl.check_rate_limit key now).1).1 = true := by
  rw [check_rate_limit_eq]
  have hc : ¬ rl.max_requests ≤ ((prunedOf rl key now).length : Int) := by
    rw [hzero]
    simp
    omega
  rw [if_neg hc]

/-- Witness for the amended C8: an unseen key at default limits is allowed. -/
theorem c8_first_request_admitted_witness :
    (((RateLimiter.mk 30 60 []).check_rate_limit "k" 0).1).1 = true :=
  c8_first_request_admitted (RateLimiter.mk 30 60 []) "k" 0 (by decide)
    (by with_unfolding_all decide)

/-- C5: immediately after an allowed `check_rate_limit`, the number of
recorded timestamps for the key within `[now - window_seconds, now]` is at
most `max_requests`; a denied call records nothing — the stored list is
exactly the pruned previous list — and (for a non-negative `max_requests`)
the count observed through `get_remaining_requests` is unchanged. -/
theorem c5_window_invariant (rl : RateLimiter) (key : String) (now : ℚ) :
    (((rl.check_rate_limit key now).1).1 = true →
      ((recordedInWindow (rl.check_rate_limit key now).2 key now : Int) ≤
        rl.max_requests)) ∧
    (((rl.check_rate_limit key now).1).1 = false →
      ((odLookup (rl.check_rate_limit key now).2.requests key).getD [] =
          prunedOf rl key now ∧
        (0 ≤ rl.max_requests →
          (((rl.check_rate_limit key now).2.get_remaining_requests key now).1 =
            (rl.get_remaining_requests key now).1)))) := by
  have hid : (prunedOf rl key now).filter
      (fun t => decide (now - (rl.window_seconds : ℚ) < t)) =
      prunedOf rl key now :=
    List.filter_eq_self.mpr (fun a ha => by
      have hm : a ∈ ((odLookup rl.requests key).getD []).filter
          (fun t => decide (now - (rl.window_seconds : ℚ) < t)) := ha
      exact (List.mem_filter.mp hm).2)
  rw [check_rate_limit_eq]
  by_cases hc : rl.max_requests ≤ ((prunedOf rl key now).length : Int)
  · rw [if_pos hc]
    constructor
    · intro hallowed
      simp at hallowed
    · intro _
      dsimp only
      constructor
      · rw [odLookup_odSet_self]
        rfl
      · intro hmax
        unfold RateLimiter.get_remaining_requests
        dsimp only
        rw [odLookup_odSet_self]
        dsimp only
        cases hl : odLookup rl.requests key with
        | none =>
          have hpr : prunedOf rl key now = [] := by
            unfold prunedOf
            rw [hl]
            rfl
          rw [hpr]
          dsimp only
          simp only [List.filter_nil, List.length_nil, Nat.cast_zero,
            sub_zero]
          exact max_eq_right hmax
        | some ts =>
          have hpr : prunedOf rl key now =
              ts.filter (fun t => decide (now - (rl.window_seconds : ℚ) < t)) := by
            unfold prunedOf
            rw [hl]
            rfl
          rw [hid]
          dsimp only
          rw [hpr]
  · rw [if_neg hc]
    constructor
    · intro _
      unfold recordedInWindow
      dsimp only
      rw [odLookup_odSet_self]
      have hlen : ((prunedOf rl key now ++ [now]).filter
          (fun t => decide (now - (rl.window_seconds : ℚ) ≤ t ∧ t ≤ now))).length ≤
          (prunedOf rl key now).length + 1 := by
        calc ((prunedOf rl key now ++ [now]).filter _).length ≤
            (prunedOf rl key now ++ [now]).length := List.length_filter_le _ _
          _ = (prunedOf rl key now).length + 1 := by
            rw [List.length_append, List.length_singleton]
      push_neg at hc
      have : ((prunedOf rl key now).length : Int) + 1 ≤ rl.max_requests := hc
      calc (((prunedOf rl key now ++ [now]).filter
            (fun t => decide (now - (rl.window_seconds : ℚ) ≤ t ∧ t ≤ now))).length : Int) ≤
          ((prunedOf rl key now).length : Int) + 1 := by exact_mod_cast hlen
        _ ≤ rl.max_requests := this
    · intro hdenied
      simp at hdenied

/-- Witness for C5 at a concrete allowed call on an unseen key. -/
theorem c5_window_invariant_witness :
    ((recordedInWindow ((RateLimiter.mk 2 60 []).check_rate_limit "k" 0).2
        "k" 0 : Int) ≤ 2) :=
  (c5_window_invariant (RateLimiter.mk 2 60 []) "k" 0).1
    (by with_unfolding_all decide)

/-!  ## Cache lemmas  -/

theorem ai_periodic_cleanup_ttl {V : Type} (s : AICacheService V)
    (now : ℚ) : (s.periodic_cleanup now).ttl_seconds = s.ttl_seconds := by
  unfold AICacheService.periodic_cleanup AICacheService.cleanup_expired
  split <;> rfl

theorem ai_periodic_cleanup_max {V : Type} (s : AICacheService V)
    (now : ℚ) : (s.periodic_cleanup now).max_size = s.max_size := by
  unfold AICacheService.periodic_cleanup AICacheService.cleanup_expired
  split <;> rfl

theorem periodic_cleanup_lookup_none {V : Type} (s : AICacheService V)
    (now : ℚ) (key : String) (hl : odLookup s.cache key = none) :
    odLookup (s.periodic_cleanup now).cache key = none := by
  unfold AICacheService.periodic_cleanup AICacheService.cleanup_expired
  split
  · exact hl
  · exact odLookup_none_filter _ hl

theorem periodic_cleanup_lookup_some {V : Type} (s : AICacheService V)
    (now : ℚ) (key : String) (v : V) (ts : ℚ) (hnd : keysNodup s.cache)
    (hl : odLookup s.cache key = some (v, ts)) :
    odLookup (s.periodic_cleanup now).cache key =
      if now - s.last_cleanup < s.cleanup_interval then some (v, ts)
      else if now - ts < s.ttl_seconds then some (v, ts) else none := by
  unfold AICacheService.periodic_cleanup AICacheService.cleanup_expired
  by_cases hcl : now - s.last_cleanup < s.cleanup_interval
  · simp only [if_pos hcl]
    exact hl
  · simp only [if_neg hcl]
    rw [odLookup_filter_some _ hnd hl]
    simp only [decide_eq_true_eq]

theorem ai_get_eq {V : Type} (s : AICacheService V) (key : String) (now : ℚ) :
    s.get_cached_recommendation key false now =
      (match odLookup (s.periodic_cleanup now).cache key with
      | none => (none, s.periodic_cleanup now)
      | some (v, ts) =>
        if (s.periodic_cleanup now).ttl_seconds ≤ now - ts then
          (none, { s.periodic_cleanup now with
                    cache := odErase (s.periodic_cleanup now).cache key })
        else
          (some v, { s.periodic_cleanup now with
                    cache := odMoveToEnd (s.periodic_cleanup now).cache key })) :=
  rfl

theorem sheets_read_eq {D : Type} (s : SheetsCacheService D) (key : String)
    (now : ℚ) :
    s.cacheRead key false now =
      (match odLookup s.cache key with
      | some (v, ts) =>
        if now - ts < s.ttl_seconds then
          (some v, { s with cache := odMoveToEnd s.cache key })
        else
          (none, { s with cache := odErase s.cache key })
      | none => (none, s)) :=
  rfl

/-- C3: a fresh read (`force_refresh = false`) returns a value iff an entry
exists for the key and `now - insertedAt < ttl_seconds`; when an entry exists
but its age is at least `ttl_seconds`, the read returns absent and deletes
the entry (lazy expiry).  Stated for `AICacheService.get_cached_recommendation`
and for the cache-consult phase of `SheetsCacheService.get_cached_data`, over
states with distinct keys (a dict invariant). -/
theorem c3_fresh_read_contract :
    (∀ (V : Type) (s : AICacheService V) (key : String) (now : ℚ),
      keysNodup s.cache →
      ((∀ v : V, (s.get_cached_recommendation key false now).1 = some v ↔
          ∃ ts : ℚ, odLookup s.cache key = some (v, ts) ∧
            now - ts < s.ttl_seconds) ∧
       (∀ (v : V) (ts : ℚ), odLookup s.cache key = some (v, ts) →
          s.ttl_seconds ≤ now - ts →
          (s.get_cached_recommendation key false now).1 = none ∧
          odLookup (s.get_cached_recommendation key false now).2.cache key =
            none))) ∧
    (∀ (D : Type) (s : SheetsCacheService D) (key : String) (now : ℚ),
      ((∀ v : D, (s.cacheRead key false now).1 = some v ↔
          ∃ ts : ℚ, odLookup s.cache key = some (v, ts) ∧
            now - ts < s.ttl_seconds) ∧
       (∀ (v : D) (ts : ℚ), odLookup s.cache key = some (v, ts) →
          s.ttl_seconds ≤ now - ts →
          (s.cacheRead key false now).1 = none ∧
          odLookup (s.cacheRead key false now).2.cache key = none))) := by
  constructor
  · intro V s key now hnd
    have httl := ai_periodic_cleanup_ttl s now
    cases hl : odLookup s.cache key with
    | none =>
      have hl1 := periodic_cleanup_lookup_none s now key hl
      simp only [ai_get_eq, hl1]
      refine ⟨fun v => ⟨fun h => absurd h (by simp), ?_⟩, fun v ts hts => ?_⟩
      · rintro ⟨ts, hts, -⟩
        exact Option.noConfusion hts
      · exact Option.noConfusion hts
    | some vts =>
      obtain ⟨v', ts'⟩ := vts
      have hcl := periodic_cleanup_lookup_some s now key v' ts' hnd hl
      by_cases hfresh : now - ts' < s.ttl_seconds
      · have hl1 : odLookup (s.periodic_cleanup now).cache key =
            some (v', ts') := by
          rw [hcl]
          by_cases hclean : now - s.last_cleanup < s.cleanup_interval
          · rw [if_pos hclean]
          · rw [if_neg hclean, if_pos hfresh]
        have hnotexp : ¬ ((s.periodic_cleanup now).ttl_seconds ≤ now - ts') := by
          rw [httl]
          exact not_le.mpr hfresh
        simp only [ai_get_eq, hl1, if_neg hnotexp]
        constructor
        · intro v
          constructor
          · intro h
            obtain rfl : v' = v := by simpa using h
            exact ⟨ts', rfl, hfresh⟩
          · rintro ⟨ts, hts, -⟩
            simp only [Option.some.injEq, Prod.mk.injEq] at hts
            rw [hts.1]
        · intro v ts hts hexp
          simp only [Option.some.injEq, Prod.mk.injEq] at hts
          rw [← hts.2] at hexp
          exact absurd hexp (not_le.mpr hfresh)
      · by_cases hclean : now - s.last_cleanup < s.cleanup_interval
        · have hl1 : odLookup (s.periodic_cleanup now).cache key =
              some (v', ts') := by
            rw [hcl, if_pos hclean]
          have hexp' : (s.periodic_cleanup now).ttl_seconds ≤ now - ts' := by
            rw [httl]
            exact not_lt.mp hfresh
          simp only [ai_get_eq, hl1, if_pos hexp']
          constructor
          · intro v
            constructor
            · intro h
              exact absurd h (by simp)
            · rintro ⟨ts, hts, hfr⟩
              simp only [Option.some.injEq, Prod.mk.injEq] at hts
              rw [← hts.2] at hfr
              exact absurd hfr hfresh
          · intro v ts hts hexp
            exact ⟨trivial, odLookup_odErase_self _ _⟩
        · have hl1 : odLookup (s.periodic_cleanup now).cache key = none := by
            rw [hcl, if_neg hclean, if_neg hfresh]
          simp only [ai_get_eq, hl1]
          constructor
          · intro v
            constructor
            · intro h
              exact absurd h (by simp)
            · rintro ⟨ts, hts, hfr⟩
              simp only [Option.some.injEq, Prod.mk.injEq] at hts
              rw [← hts.2] at hfr
              exact absurd hfr hfresh
          · intro v ts hts hexp
            exact ⟨trivial, trivial⟩
  · intro D s key now
    cases hl : odLookup s.cache key with
    | none =>
      simp only [sheets_read_eq, hl]
      refine ⟨fun v => ⟨fun h => absurd h (by simp), ?_⟩, fun v ts hts => ?_⟩
      · rintro ⟨ts, hts, -⟩
        exact Option.noConfusion hts
      · exact Option.noConfusion hts
    | some vts =>
      obtain ⟨v', ts'⟩ := vts
      by_cases hfresh : now - ts' < s.ttl_seconds
      · simp only [sheets_read_eq, hl, if_pos hfresh]
        constructor
        · intro v
          constructor
          · intro h
            obtain rfl : v' = v := by simpa using h
            exact ⟨ts', rfl, hfresh⟩
          · rintro ⟨ts, hts, -⟩
            simp only [Option.some.injEq, Prod.mk.injEq] at hts
            rw [hts.1]
        · intro v ts hts hexp
          simp only [Option.some.injEq, Prod.mk.injEq] at hts
          rw [← hts.2] at hexp
          exact absurd hexp (not_le.mpr hfresh)
      · simp only [sheets_read_eq, hl, if_neg hfresh]
        constructor
        · intro v
          constructor
          · intro h
            exact absurd h (by simp)
          · rintro ⟨ts, hts, hfr⟩
            simp only [Option.some.injEq, Prod.mk.injEq] at hts
            rw [← hts.2] at hfr
            exact absurd hfr hfresh
        · intro v ts hts hexp
          exact ⟨trivial, odLookup_odErase_self _ _⟩

/-- Witness for C3: a fresh hit at a concrete cache state returns the value. -/
theorem c3_fresh_read_contract_witness :
    ((AICacheService.mk [("k", (7 : Nat), 0)] 30 500 0 60).get_cached_recommendation
      "k" false 10).1 = some 7 :=
  ((c3_fresh_read_contract.1 Nat (AICacheService.mk [("k", (7 : Nat), 0)] 30 500 0 60)
      "k" 10 (by decide)).1 7).mpr
    ⟨0, by with_unfolding_all decide, by with_unfolding_all decide⟩

theorem ai_periodic_cleanup_length {V : Type} (s : AICacheService V)
    (now : ℚ) : (s.periodic_cleanup now).cache.length ≤ s.cache.length := by
  unfold AICacheService.periodic_cleanup AICacheService.cleanup_expired
  split
  · exact Nat.le_refl _
  · exact List.length_filter_le _ _

theorem sheets_periodic_cleanup_max {D : Type}
    (s : SheetsCacheService D) (now : ℚ) :
    (s.periodic_cleanup now).max_size = s.max_size := by
  unfold SheetsCacheService.periodic_cleanup SheetsCacheService.cleanup_expired
  split <;> rfl

theorem sheets_periodic_cleanup_length {D : Type}
    (s : SheetsCacheService D) (now : ℚ) :
    (s.periodic_cleanup now).cache.length ≤ s.cache.length := by
  unfold SheetsCacheService.periodic_cleanup SheetsCacheService.cleanup_expired
  split
  · exact Nat.le_refl _
  · exact List.length_filter_le _ _

theorem sheets_cacheRead_true {D : Type} (s : SheetsCacheService D)
    (key : String) (now : ℚ) : s.cacheRead key true now = (none, s) := by
  unfold SheetsCacheService.cacheRead
  rw [if_neg (by simp)]

theorem sheets_cacheRead_bound {D : Type} (s : SheetsCacheService D)
    (key : String) (f : Bool) (now : ℚ) :
    (s.cacheRead key f now).2.cache.length ≤ s.cache.length ∧
    (s.cacheRead key f now).2.max_size = s.max_size := by
  cases f with
  | true =>
    rw [sheets_cacheRead_true]
    exact ⟨Nat.le_refl _, rfl⟩
  | false =>
    rw [sheets_read_eq]
    cases hl : odLookup s.cache key with
    | none => exact ⟨Nat.le_refl _, rfl⟩
    | some vts =>
      obtain ⟨v, ts⟩ := vts
      dsimp only
      by_cases hfr : now - ts < s.ttl_seconds
      · rw [if_pos hfr]
        exact ⟨odMoveToEnd_length_le _ _, rfl⟩
      · rw [if_neg hfr]
        exact ⟨odErase_length_le _ _, rfl⟩

theorem ai_step_preserves {V : Type} (s : AICacheService V) (op : AIOp V)
    (hle : s.cache.length ≤ s.max_size) (hm : 1 ≤ s.max_size) :
    (AIOp.apply s op).cache.length ≤ (AIOp.apply s op).max_size ∧
    (AIOp.apply s op).max_size = s.max_size := by
  cases op with
  | read k f n =>
    simp only [AIOp.apply]
    cases f with
    | true => exact ⟨hle, rfl⟩
    | false =>
      rw [ai_get_eq]
      have hmax1 := ai_periodic_cleanup_max s n
      have hlen1 := ai_periodic_cleanup_length s n
      cases hl : odLookup (s.periodic_cleanup n).cache k with
      | none =>
        refine ⟨?_, hmax1⟩
        rw [hmax1]
        exact hlen1.trans hle
      | some vts =>
        obtain ⟨v, ts⟩ := vts
        dsimp only
        by_cases hexp : (s.periodic_cleanup n).ttl_seconds ≤ n - ts
        · rw [if_pos hexp]
          refine ⟨?_, hmax1⟩
          rw [hmax1]
          exact ((odErase_length_le _ _).trans hlen1).trans hle
        · rw [if_neg hexp]
          refine ⟨?_, hmax1⟩
          rw [hmax1]
          exact ((odMoveToEnd_length_le _ _).trans hlen1).trans hle
  | store k v n =>
    simp only [AIOp.apply]
    unfold AICacheService.set_cached_recommendation
    by_cases hc : s.max_size ≤ s.cache.length
    · rw [if_pos hc]
      dsimp only
      refine ⟨?_, rfl⟩
      have hlen : s.cache.length = s.max_size := Nat.le_antisymm hle hc
      have h1 : (odSet s.cache.tail k (v, n)).length ≤ s.cache.tail.length + 1 :=
        odSet_length_le _ _ _
      have h2 : s.cache.tail.length = s.cache.length - 1 := List.length_tail _
      omega
    · rw [if_neg hc]
      dsimp only
      refine ⟨?_, rfl⟩
      have h1 : (odSet s.cache k (v, n)).length ≤ s.cache.length + 1 :=
        odSet_length_le _ _ _
      omega
  | cleanup n =>
    simp only [AIOp.apply]
    unfold AICacheService.cleanup_expired
    exact ⟨(List.length_filter_le _ _).trans hle, rfl⟩
  | clear =>
    simp only [AIOp.apply]
    unfold AICacheService.clear
    simp
  | stats n => exact ⟨hle, rfl⟩

theorem sheets_step_preserves {D : Type} (s : SheetsCacheService D)
    (op : SheetsOp D) (hle : s.cache.length ≤ s.max_size)
    (hm : 1 ≤ s.max_size) :
    (SheetsOp.apply s op).cache.length ≤ (SheetsOp.apply s op).max_size ∧
    (SheetsOp.apply s op).max_size = s.max_size := by
  cases op with
  | fetch sid wn f up n =>
    simp only [SheetsOp.apply]
    unfold SheetsCacheService.get_cached_data
    dsimp only
    have hmax1 := sheets_periodic_cleanup_max s n
    have hlen1 := sheets_periodic_cleanup_length s n
    have hrb := sheets_cacheRead_bound (s.periodic_cleanup n)
      (sid ++ ":" ++ wn) f n
    have hr2len : ((s.periodic_cleanup n).cacheRead (sid ++ ":" ++ wn) f n).2.cache.length ≤
        s.max_size := (hrb.1.trans hlen1).trans hle
    have hr2max : ((s.periodic_cleanup n).cacheRead (sid ++ ":" ++ wn) f n).2.max_size =
        s.max_size := hrb.2.trans hmax1
    cases hh : ((s.periodic_cleanup n).cacheRead (sid ++ ":" ++ wn) f n).1 with
    | some v =>
      exact ⟨hr2max ▸ hr2len, hr2max⟩
    | none =>
      cases up with
      | ok raw =>
        dsimp only
        set s1 := ((s.periodic_cleanup n).cacheRead (sid ++ ":" ++ wn) f n).2 with hs1
        by_cases hc : s1.max_size ≤ s1.cache.length
        · rw [if_pos hc]
          refine ⟨?_, hr2max⟩
          have hlen : s1.cache.length = s1.max_size :=
            Nat.le_antisymm (hr2max ▸ hr2len) hc
          have h1 : (odSet s1.cache.tail (sid ++ ":" ++ wn) (raw, n)).length ≤
              s1.cache.tail.length + 1 := odSet_length_le _ _ _
          have h2 : s1.cache.tail.length = s1.cache.length - 1 := List.length_tail _
          have hm1 : 1 ≤ s1.max_size := hr2max ▸ hm
          omega
        · rw [if_neg hc]
          refine ⟨?_, hr2max⟩
          have h1 : (odSet s1.cache (sid ++ ":" ++ wn) (raw, n)).length ≤
              s1.cache.length + 1 := odSet_length_le _ _ _
          omega
      | error e =>
        dsimp only
        cases hl : odLookup ((s.periodic_cleanup n).cacheRead (sid ++ ":" ++ wn) f n).2.cache
            (sid ++ ":" ++ wn) with
        | some vts =>
          obtain ⟨v, _⟩ := vts
          dsimp only
          split
          · exact ⟨hr2max ▸ hr2len, hr2max⟩
          · exact ⟨hr2max ▸ hr2len, hr2max⟩
        | none => exact ⟨hr2max ▸ hr2len, hr2max⟩
  | cleanup n =>
    simp only [SheetsOp.apply]
    unfold SheetsCacheService.cleanup_expired
    exact ⟨(List.length_filter_le _ _).trans hle, rfl⟩
  | clear =>
    simp only [SheetsOp.apply]
    unfold SheetsCacheService.clear_cache
    simp
  | stats n => exact ⟨hle, rfl⟩

theorem ai_runOps_bound {V : Type} (ops : List (AIOp V)) (s : AICacheService V)
    (hle : s.cache.length ≤ s.max_size) (hm : 1 ≤ s.max_size) :
    (s.runOps ops).cache.length ≤ (s.runOps ops).max_size ∧
    (s.runOps ops).max_size = s.max_size := by
  induction ops generalizing s with
  | nil => exact ⟨hle, rfl⟩
  | cons op rest ih =>
    have hstep := ai_step_preserves s op hle hm
    have hm' : 1 ≤ (AIOp.apply s op).max_size := hstep.2 ▸ hm
    have hrec := ih (AIOp.apply s op) hstep.1 hm'
    exact ⟨hrec.1, hrec.2.trans hstep.2⟩

theorem sheets_runOps_bound {D : Type} (ops : List (SheetsOp D))
    (s : SheetsCacheService D) (hle : s.cache.length ≤ s.max_size)
    (hm : 1 ≤ s.max_size) :
    (s.runOps ops).cache.length ≤ (s.runOps ops).max_size ∧
    (s.runOps ops).max_size = s.max_size := by
  induction ops generalizing s with
  | nil => exact ⟨hle, rfl⟩
  | cons op rest ih =>
    have hstep := sheets_step_preserves s op hle hm
    have hm' : 1 ≤ (SheetsOp.apply s op).max_size := hstep.2 ▸ hm
    have hrec := ih (SheetsOp.apply s op) hstep.1 hm'
    exact ⟨hrec.1, hrec.2.trans hstep.2⟩

/-- C4: a cache constructed with `max_size ≥ 1` never holds more than
`max_size` entries after any sequence of public operations (reads, stores,
cleanup, clear, stats), for both cache classes; the bound comes from the
eviction check performed immediately before each insert. -/
theorem c4_capacity_invariant :
    (∀ (V : Type) (ttl now₀ : ℚ) (m : Nat), 1 ≤ m →
      ∀ ops : List (AIOp V),
        ((AICacheService.init V ttl m now₀).runOps ops).cache.length ≤ m) ∧
    (∀ (D : Type) (ttl now₀ : ℚ) (m : Nat), 1 ≤ m →
      ∀ ops : List (SheetsOp D),
        ((SheetsCacheService.init D ttl m now₀).runOps ops).cache.length ≤ m) := by
  constructor
  · intro V ttl n0 m hm ops
    have h := ai_runOps_bound ops (AICacheService.init V ttl m n0)
      (by simp [AICacheService.init]) (by simpa [AICacheService.init] using hm)
    calc ((AICacheService.init V ttl m n0).runOps ops).cache.length ≤
        ((AICacheService.init V ttl m n0).runOps ops).max_size := h.1
      _ = m := h.2
  · intro D ttl n0 m hm ops
    have h := sheets_runOps_bound ops (SheetsCacheService.init D ttl m n0)
      (by simp [SheetsCacheService.init]) (by simpa [SheetsCacheService.init] using hm)
    calc ((SheetsCacheService.init D ttl m n0).runOps ops).cache.length ≤
        ((SheetsCacheService.init D ttl m n0).runOps ops).max_size := h.1
      _ = m := h.2

/-- Witness for C4: three distinct stores into a two-slot cache stay within
the bound. -/
theorem c4_capacity_invariant_witness :
    ((AICacheService.init Nat 30 2 0).runOps
      [AIOp.store "a" 1 0, AIOp.store "b" 2 0, AIOp.store "c" 3 0]).cache.length ≤ 2 :=
  c4_capacity_invariant.1 Nat 30 0 2 (by decide)
    [AIOp.store "a" 1 0, AIOp.store "b" 2 0, AIOp.store "c" 3 0]

theorem odSet_map_fst_of_mem {α : Type} (l : List (String × α)) (k : String)
    (v : α) (h : (l.find? (fun p => p.1 == k)).isSome) :
    (odSet l k v).map Prod.fst = l.map Prod.fst := by
  unfold odSet
  rw [if_pos h, List.map_map]
  refine List.map_congr_left (fun p hp => ?_)
  cases hb : (p.1 == k) with
  | true =>
    simp only [Function.comp_apply, hb, if_true]
    exact (eq_of_beq hb).symm
  | false => simp only [Function.comp_apply, hb, Bool.false_eq_true, if_false]

/-- C2 fails as stated: with `max_size = 2` and entries `a`, `b`, storing a
value for the existing key `b` still evicts `a` — the code pops before
checking whether the key is new. -/
theorem c2_lru_eviction_counterexample :
    ((odLookup (AICacheService.mk [("a", (1 : Nat), 0), ("b", 2, 0)] 1 2 0 60).cache
        "b").isSome = true) ∧
    (AICacheService.mk [("a", (1 : Nat), 0), ("b", 2, 0)] 1 2 0 60).cache.length = 2 ∧
    odLookup ((AICacheService.mk [("a", (1 : Nat), 0), ("b", 2, 0)] 1 2 0 60).set_cached_recommendation
        "b" 9 5).cache "a" = none := by
  refine ⟨by with_unfolding_all decide, by decide, by with_unfolding_all decide⟩

/-- C2 amended: on a store, an existing entry for another key `k'` is
evicted iff the cache already holds at least `max_size` entries (whether or
not the stored key is new) and `k'` is the key at the front of the order;
the order is advanced to the back by `get` hits and by inserts of new keys,
but a store that overwrites an existing key leaves its position unchanged
(the second conjunct), so the policy is head-of-order eviction, not exact
least-recently-touched LRU. -/
theorem c2_lru_eviction (V : Type) (s : AICacheService V) (key : String)
    (v : V) (now : ℚ) (k' : String) (a : V × ℚ)
    (hnd : keysNodup s.cache) (hk' : odLookup s.cache k' = some a) :
    ((odLookup (s.set_cached_recommendation key v now).cache k' = none ↔
      (s.max_size ≤ s.cache.length ∧
       s.cache.head?.map Prod.fst = some k' ∧ k' ≠ key)) ∧
     (s.cache.length < s.max_size → odLookup s.cache key ≠ none →
       (s.set_cached_recommendation key v now).cache.map Prod.fst =
         s.cache.map Prod.fst)) := by
  constructor
  · unfold AICacheService.set_cached_recommendation
    dsimp only
    by_cases hkk : k' = key
    · subst hkk
      simp only [odLookup_odSet_self]
      constructor
      · intro h
        exact absurd h (by simp)
      · rintro ⟨-, -, habs⟩
        exact absurd rfl habs
    · rw [odLookup_odSet_ne _ _ hkk]
      by_cases hc : s.max_size ≤ s.cache.length
      · rw [if_pos hc]
        cases hcache : s.cache with
        | nil =>
          rw [hcache] at hk'
          exact absurd hk' (by simp [odLookup_nil])
        | cons p t =>
          rw [hcache] at hnd hk'
          obtain ⟨hhead, hnd'⟩ := keysNodup_cons hnd
          dsimp only [List.tail_cons, List.head?_cons]
          by_cases hp : p.1 = k'
          · have hnone : odLookup t k' = none :=
              odLookup_eq_none_of_not_mem_keys (hp ▸ hhead)
            rw [hnone]
            simp only [Option.map_some']
            constructor
            · intro _
              exact ⟨hcache ▸ hc, by rw [hp], hkk⟩
            · intro _
              trivial
          · have hlk : odLookup t k' = some a := by
              rw [odLookup_cons] at hk'
              rwa [if_neg (by simpa using hp)] at hk'
            rw [hlk]
            constructor
            · intro h
              exact absurd h (by simp)
            · rintro ⟨-, hh, -⟩
              simp only [Option.map_some', Option.some.injEq] at hh
              exact absurd hh hp
      · rw [if_neg hc, hk']
        constructor
        · intro h
          exact absurd h (by simp)
        · rintro ⟨hcl, -, -⟩
          exact absurd hcl hc
  · intro hlt hmem
    unfold AICacheService.set_cached_recommendation
    dsimp only
    rw [if_neg (not_le.mpr hlt)]
    refine odSet_map_fst_of_mem _ _ _ ?_
    unfold odLookup at hmem
    cases hf : s.cache.find? (fun p => p.1 == key) with
    | none =>
      rw [hf] at hmem
      exact absurd rfl hmem
    | some e => rfl

/-- Witness for the amended C2: storing a brand-new key into a full cache
evicts exactly the front entry. -/
theorem c2_lru_eviction_witness :
    odLookup ((AICacheService.mk [("a", (1 : Nat), 0), ("b", 2, 0)] 1 2 0 60).set_cached_recommendation
      "c" 9 5).cache "a" = none :=
  ((c2_lru_eviction Nat (AICacheService.mk [("a", (1 : Nat), 0), ("b", 2, 0)] 1 2 0 60)
      "c" 9 5 "a" (1, 0) (by decide) (by with_unfolding_all decide)).1).mpr
    ⟨by decide, by decide, by decide⟩

theorem sheets_periodic_cleanup_ttl {D : Type}
    (s : SheetsCacheService D) (now : ℚ) :
    (s.periodic_cleanup now).ttl_seconds = s.ttl_seconds := by
  unfold SheetsCacheService.periodic_cleanup SheetsCacheService.cleanup_expired
  split <;> rfl

theorem sheets_periodic_cleanup_lookup_none {D : Type}
    (s : SheetsCacheService D) (now : ℚ) (key : String)
    (hl : odLookup s.cache key = none) :
    odLookup (s.periodic_cleanup now).cache key = none := by
  unfold SheetsCacheService.periodic_cleanup SheetsCacheService.cleanup_expired
  split
  · exact hl
  · exact odLookup_none_filter _ hl

deriving instance DecidableEq for Except

/-- C1 fails as stated: under `force_refresh = false` an expired entry is
deleted by the cache-consult phase before the upstream call, so when the
upstream raises a throttled error the fallback finds nothing and the call
re-raises instead of returning the stale value. -/
theorem c1_stale_on_throttle_counterexample :
    isThrottledError "429 Too Many Requests" = true ∧
    odLookup (SheetsCacheService.mk [("sid:ws", (7 : Nat), 0)] 30 500 0 60).cache
      "sid:ws" = some (7, 0) ∧
    ((SheetsCacheService.mk [("sid:ws", (7 : Nat), 0)] 30 500 0 60).get_cached_data
      "sid" "ws" false (.error "429 Too Many Requests") 30).1 =
      .error "429 Too Many Requests" := by
  refine ⟨by decide, by with_unfolding_all decide, by with_unfolding_all decide⟩

/-- C1 amended: the stale-on-throttle fallback works for `force_refresh =
true` (which skips the cache-consult phase, so the prior entry — even one at
or past its TTL — is still present at the except-branch): a Throttled-classified
upstream error returns the cached value, while any other error re-raises.
The throttled inline cleanup must not fire during the call
(`now - last_cleanup < cleanup_interval`), or a swept expired entry is
likewise gone.  Under `force_refresh = false` the fallback is unreachable:
a fresh entry returns without calling the upstream, and an expired one is
deleted first (the counterexample). -/
theorem c1_stale_on_throttle (D : Type) (s : SheetsCacheService D)
    (sid wn : String) (v1 : D) (ts : ℚ) (e : String) (now : ℚ)
    (hcache : odLookup s.cache (sid ++ ":" ++ wn) = some (v1, ts))
    (hsweep : now - s.last_cleanup < s.cleanup_interval) :
    (isThrottledError e = true →
      (s.get_cached_data sid wn true (.error e) now).1 = .ok v1) ∧
    (isThrottledError e = false →
      (s.get_cached_data sid wn true (.error e) now).1 = .error e) := by
  have hs0 : s.periodic_cleanup now = s := by
    unfold SheetsCacheService.periodic_cleanup
    rw [if_pos hsweep]
  unfold SheetsCacheService.get_cached_data
  dsimp only
  rw [hs0, sheets_cacheRead_true]
  dsimp only
  rw [hcache]
  dsimp only
  constructor
  · intro hth
    rw [if_pos hth]
  · intro hth
    rw [if_neg (by rw [hth]; exact Bool.false_ne_true)]

/-- Witness for the amended C1: an expired entry (age = TTL) is still served
under a throttled upstream error with `force_refresh = true`. -/
theorem c1_stale_on_throttle_witness :
    ((SheetsCacheService.mk [("sid:ws", (7 : Nat), 0)] 30 500 0 60).get_cached_data
      "sid" "ws" true (.error "429") 30).1 = .ok 7 :=
  (c1_stale_on_throttle Nat (SheetsCacheService.mk [("sid:ws", (7 : Nat), 0)] 30 500 0 60)
    "sid" "ws" 7 0 "429" 30 (by with_unfolding_all decide)
    (by with_unfolding_all decide)).1 (by decide)

/-- C10: the timestamp stored with a freshly fetched value is `current_time`,
captured at the start of `get_cached_data` before the upstream read runs; if
the upstream read takes `d ≥ ttl_seconds`, the entry is already expired at
return time, so an immediately following fresh read at `now + d` reports
absent and deletes it. -/
theorem c10_prefetch_timestamp (D : Type) (s : SheetsCacheService D)
    (sid wn : String) (raw : D) (now d : ℚ)
    (habsent : odLookup s.cache (sid ++ ":" ++ wn) = none)
    (hd : s.ttl_seconds ≤ d) :
    (s.get_cached_data sid wn false (.ok raw) now).1 = .ok raw ∧
    odLookup (s.get_cached_data sid wn false (.ok raw) now).2.cache
      (sid ++ ":" ++ wn) = some (raw, now) ∧
    ((s.get_cached_data sid wn false (.ok raw) now).2.cacheRead
      (sid ++ ":" ++ wn) false (now + d)).1 = none ∧
    odLookup ((s.get_cached_data sid wn false (.ok raw) now).2.cacheRead
      (sid ++ ":" ++ wn) false (now + d)).2.cache (sid ++ ":" ++ wn) = none := by
  have h0 : odLookup (s.periodic_cleanup now).cache (sid ++ ":" ++ wn) = none :=
    sheets_periodic_cleanup_lookup_none s now _ habsent
  have hread : (s.periodic_cleanup now).cacheRead (sid ++ ":" ++ wn) false now =
      (none, s.periodic_cleanup now) := by
    rw [sheets_read_eq, h0]
  have hget : s.get_cached_data sid wn false (.ok raw) now =
      (.ok raw,
        { s.periodic_cleanup now with
          cache := odSet
            (if (s.periodic_cleanup now).max_size ≤
                (s.periodic_cleanup now).cache.length then
              (s.periodic_cleanup now).cache.tail
            else (s.periodic_cleanup now).cache)
            (sid ++ ":" ++ wn) (raw, now) }) := by
    unfold SheetsCacheService.get_cached_data
    dsimp only
    rw [hread]
  rw [hget]
  dsimp only
  refine ⟨rfl, odLookup_odSet_self _ _ _, ?_, ?_⟩
  · rw [sheets_read_eq]
    dsimp only
    rw [odLookup_odSet_self]
    dsimp only
    rw [if_neg ?hexp]
    case hexp =>
      rw [sheets_periodic_cleanup_ttl]
      have harith : now + d - now = d := by ring
      rw [harith]
      exact not_lt.mpr hd
  · rw [sheets_read_eq]
    dsimp only
    rw [odLookup_odSet_self]
    dsimp only
    rw [if_neg ?hexp2]
    case hexp2 =>
      rw [sheets_periodic_cleanup_ttl]
      have harith : now + d - now = d := by ring
      rw [harith]
      exact not_lt.mpr hd
    exact odLookup_odErase_self _ _

/-- Witness for C10: a fetch that takes exactly the TTL leaves an entry that
the next fresh read expires and deletes. -/
theorem c10_prefetch_timestamp_witness :
    ((SheetsCacheService.mk ([] : List (String × Nat × ℚ)) 30 500 0 60).get_cached_data
      "s" "w" false (.ok 5) 0).1 = .ok 5 ∧
    odLookup ((SheetsCacheService.mk ([] : List (String × Nat × ℚ)) 30 500 0 60).get_cached_data
      "s" "w" false (.ok 5) 0).2.cache "s:w" = some (5, 0) ∧
    (((SheetsCacheService.mk ([] : List (String × Nat × ℚ)) 30 500 0 60).get_cached_data
      "s" "w" false (.ok 5) 0).2.cacheRead "s:w" false (0 + 30)).1 = none ∧
    odLookup (((SheetsCacheService.mk ([] : List (String × Nat × ℚ)) 30 500 0 60).get_cached_data
      "s" "w" false (.ok 5) 0).2.cacheRead "s:w" false (0 + 30)).2.cache "s:w" = none :=
  c10_prefetch_timestamp Nat (SheetsCacheService.mk [] 30 500 0 60) "s" "w" 5 0 30
    (by decide) (by with_unfolding_all decide)

set_option maxRecDepth 4000

/-- Embedding validation: MD5 of the empty message (RFC 1321 test vector). -/
theorem md5_empty_vector :
    md5HexDigest (utf8Encode "") = "d41d8cd98f00b204e9800998ecf8427e" := by
  decide

/-- Embedding validation: MD5 of "abc" (RFC 1321 test vector). -/
theorem md5_abc_vector :
    md5HexDigest (utf8Encode "abc") = "900150983cd24fb0d6963f7d28e17f72" := by
  decide

/-- C9 fails as stated: the code's key begins with `"ai_rec_"`, not the
spec's `"result_"`; on user 1 and payload `{"temp": 30}` the code produces
`"ai_rec_1_f4905ffd"`, not the `"result_1_..."` the claim requires. -/
theorem c9_cache_key_counterexample :
    generate_cache_key 1 (PyJson.obj [("temp", PyJson.int 30)]) =
      "ai_rec_1_f4905ffd" ∧
    generate_cache_key 1 (PyJson.obj [("temp", PyJson.int 30)]) ≠
      specResultCacheKey 1 (PyJson.obj [("temp", PyJson.int 30)]) := by
  refine ⟨by decide, by decide⟩

/-- The spec's derived-result key formula with the literal the code actually
uses: `"ai_rec_" + subjectId + "_" +
first8HexChars(md5(canonicalJSON(inputPayload)))`. -/
def specAmendedCacheKey (subjectId : Int) (inputPayload : PyJson) : String :=
  "ai_rec_" ++ toString subjectId ++ "_" ++
    first8HexChars (md5HexDigest (utf8Encode (canonicalJSON inputPayload)))

/-- C9 amended: for every user id and payload, `generate_cache_key` yields
`"ai_rec_" + subjectId + "_"` followed by the first 8 hex characters of the
MD5 of the payload's canonical JSON (object keys sorted before
serialisation) — the spec's formula with the `"ai_rec_"` literal. -/
theorem c9_cache_key (user_id : Int) (weather_data : PyJson) :
    generate_cache_key user_id weather_data =
      specAmendedCacheKey user_id weather_data := rfl
